import Mathlib

/-!
Shallow embedding of `build_blog.py`, a static blog-site generator.

Strings are modelled as `List Char`.  The external collaborators
(`rst2html`, `git clone`) are modelled as opaque function parameters:
`render` maps the markup text written to the temporary file to the HTML
that `rst2html` prints on stdout, and `clone` maps a repository locator
to the contents of the `README.rst` found in the cloned tree.

Python's `str.replace(old, new)` (all occurrences, scanned left to
right, non-overlapping) is `pyReplace`; `str.split(sep)` is `pySplit`;
`sep.join` is `pyJoin`; `list.insert(i, x)` (which appends when
`i ≥ len`) is `pyInsert`.  All patterns passed to `pyReplace` in this
development are non-empty, so the empty-pattern corner of Python's
`replace` is irrelevant and `pyReplace` leaves the string unchanged
there.
-/

/-- Fuel-indexed scanner behind `pyReplace`; the fuel only bounds the
recursion depth and is irrelevant once it dominates the input length. -/
def pyReplaceF (pat repl : List Char) : Nat → List Char → List Char
  | _, [] => []
  | 0, s => s
  | fuel + 1, c :: rest =>
    if pat ≠ [] ∧ pat <+: (c :: rest) then
      repl ++ pyReplaceF pat repl fuel (List.drop pat.length (c :: rest))
    else
      c :: pyReplaceF pat repl fuel rest

/-- Python `s.replace(pat, repl)` for a non-empty `pat`: scan left to
right, replace each non-overlapping occurrence. -/
def pyReplace (pat repl : List Char) (s : List Char) : List Char :=
  pyReplaceF pat repl s.length s

/-- Number of (possibly overlapping) positions of `s` at which `pat`
occurs as a contiguous run. -/
def countOccs (pat : List Char) : List Char → Nat
  | [] => 0
  | c :: rest => (if pat <+: (c :: rest) then 1 else 0) + countOccs pat rest

/-- Python `s.split(c)`: separator-delimited pieces, empty pieces kept,
`"".split(c) = [""]`. -/
def pySplit (c : Char) : List Char → List (List Char)
  | [] => [[]]
  | a :: rest =>
    match pySplit c rest with
    | [] => [[]]
    | l :: ls => if a = c then [] :: l :: ls else (a :: l) :: ls

/-- Python `c.join(pieces)`. -/
def pyJoin (c : Char) : List (List Char) → List Char
  | [] => []
  | [l] => l
  | l :: l' :: ls => l ++ c :: pyJoin c (l' :: ls)

/-- Python `list.insert(i, x)`: insert before index `i`, appending when
`i` is at least the length of the list. -/
def pyInsert (i : Nat) (x : α) : List α → List α
  | [] => [x]
  | a :: l =>
    match i with
    | 0 => x :: a :: l
    | n + 1 => a :: pyInsert n x l

/-- The `ICON` constant of `build_blog.py`. -/
def ICON : List Char :=
  "<link rel=\"icon\" href=\"resources/JT.jpeg\"/>".data

/-- The `HEADER` constant of `build_blog.py` (a triple-quoted literal:
it starts and ends with a newline). -/
def HEADER : List Char :=
  "\n<table style=\"margin-top: 2em; width: 100%; border: none;\">\n    <tr style=\"border: none;\">\n        <td style=\"border: none;\">\n            <img src=\"resources/JT.jpeg\" style=\"width: 3em;\"/>\n        </td>\n        <td style=\"border: none; text-align: right;\">\n            <span style=\"margin-left: 2em;\">\n                <a href=\"index.html\">posts</a>\n            </span>\n            <span style=\"margin-left: 2em;\">\n                <a href=\"https://github.com/pyohannes\">github</a>\n            </span>\n            <span style=\"margin-left: 2em;\">\n                <a href=\"mailto:johannes@johannes.tax\">email</a>\n            </span>\n        </td>\n    </tr>\n</table>\n".data

/-- The `FOOTER` constant of `build_blog.py` (note the trailing blanks
after `2018` and after the first closing anchor, present in the
source). -/
def FOOTER : List Char :=
  "\n<p style=\"font-size: 0.6em;\">\n  &copy; 2018 \n  <a href=\"http://johannes.tax\">Johannes Tax</a> \n  (<a href=\"mailto:johannes@johannes.tax\">johannes@johannes.tax</a>)\n</p>\n".data

/-- Segment of the `DISQUS` template before the first `%s` hole. -/
def DISQUS_a : List Char :=
  "\n<div id=\"disqus_thread\"></div>\n<script>\n\n/**\n*  RECOMMENDED CONFIGURATION VARIABLES: EDIT AND UNCOMMENT THE SECTION BELOW TO INSERT DYNAMIC VALUES FROM YOUR PLATFORM OR CMS.\n*  LEARN WHY DEFINING THESE VARIABLES IS IMPORTANT: https://disqus.com/admin/universalcode/#configuration-variables*/\nvar disqus_config = function () \x7b\nthis.page.url = '".data

/-- Segment of the `DISQUS` template between the two `%s` holes. -/
def DISQUS_b : List Char :=
  "';  // Replace PAGE_URL with your page's canonical URL variable\nthis.page.identifier = '".data

/-- Segment of the `DISQUS` template after the second `%s` hole. -/
def DISQUS_c : List Char :=
  "'; // Replace PAGE_IDENTIFIER with your page's unique identifier variable\n\x7d;\n(function() \x7b // DON'T EDIT BELOW THIS LINE\nvar d = document, s = d.createElement('script');\ns.src = 'https://johannes-tax.disqus.com/embed.js';\ns.setAttribute('data-timestamp', +new Date());\n(d.head || d.body).appendChild(s);\n\x7d)();\n</script>\n<noscript>Please enable JavaScript to view the <a href=\"https://disqus.com/?ref_noscript\">comments powered by Disqus.</a></noscript>\n".data

/-- The `DISQUS` template of `build_blog.py`, applied to its two `%s`
arguments (the canonical page URL and the page identifier). -/
def DISQUS (url id : List Char) : List Char :=
  DISQUS_a ++ url ++ DISQUS_b ++ id ++ DISQUS_c

/-- The comment fragment `commentfooter` built in `compile_rst`:
`DISQUS % ("http://johannes.tax/%s" % comments_id, comments_id)`. -/
def commentFooter (id : List Char) : List Char :=
  DISQUS ("http://johannes.tax/".data ++ id) id

/-- The literal marker `"<head>"`. -/
def headMarker : List Char := "<head>".data

/-- The literal marker `"<body>"`. -/
def bodyMarker : List Char := "<body>".data

/-- The literal marker `"</body>"`. -/
def bodyEndMarker : List Char := "</body>".data

/-- `"<head>\n%s" % ICON`, the replacement spliced for `"<head>"`. -/
def headRepl : List Char := "<head>\n".data ++ ICON

/-- `"<body>\n%s" % HEADER`, the replacement spliced for `"<body>"`. -/
def bodyRepl : List Char := "<body>\n".data ++ HEADER

/-- The template-splicing step of `compile_rst` (lines 79-85): the four
substring replacements applied to the renderer's output `out`, with the
comment-widget replacement only when a comment identifier is active. -/
def splice_fragments (out : List Char) (cid : Option (List Char)) : List Char :=
  let out1 := pyReplace headMarker headRepl out
  let out2 := pyReplace bodyMarker bodyRepl out1
  let out3 :=
    match cid with
    | some c => pyReplace bodyEndMarker (commentFooter c ++ bodyEndMarker) out2
    | none => out2
  pyReplace bodyEndMarker (FOOTER ++ bodyEndMarker) out3

/-- `compile_rst(rst, comments_id)`: write `rst` (plus a Comments
heading when `comments_id` is truthy) to the temporary file, run the
external renderer on it, and splice the template fragments into the
rendered HTML.  Python's truthiness makes a `None` or empty identifier
inactive. -/
def compile_rst (render : List Char → List Char) (rst : List Char)
    (comments_id : Option (List Char)) : List Char :=
  let cid := match comments_id with
    | some c => if c = [] then none else some c
    | none => none
  let input := match cid with
    | some _ => rst ++ "\n\nComments\n--------\n\n".data
    | none => rst
  splice_fragments (render input) cid

/-- A `BlogEntry`: `raw` models the text returned by `self.read()` (for
a `TextBlogEntry`, the current contents of the source file), and
`_compiled` the memoization field initialised to `None`. -/
structure BlogEntry where
  title : List Char
  date : List Char
  raw : List Char
  _compiled : Option (List Char)

/-- `BlogEntry.filename`: `"%s.html" % self.title.replace(" ", "_")`. -/
def BlogEntry.filename (e : BlogEntry) : List Char :=
  pyReplace " ".data "_".data e.title ++ ".html".data

/-- `BlogEntry.get_source`: split the raw text on newlines, insert the
`"\nPosted on %s\n"` element at index 2, and join with newlines. -/
def BlogEntry.get_source (e : BlogEntry) : List Char :=
  pyJoin '\n'
    (pyInsert 2 ("\nPosted on ".data ++ e.date ++ "\n".data)
      (pySplit '\n' e.raw))

/-- `BlogEntry.compile`: `if not self._compiled:` recompute and cache,
else return the cache.  Python truthiness: `None` and the empty string
both fail the check, so an empty cached value is recomputed. -/
def BlogEntry.compile (render : List Char → List Char) (e : BlogEntry) :
    List Char × BlogEntry :=
  match e._compiled with
  | some s =>
    if s = [] then
      let r := compile_rst render e.get_source (some e.filename)
      (r, { e with _compiled := some r })
    else
      (s, e)
  | none =>
    let r := compile_rst render e.get_source (some e.filename)
    (r, { e with _compiled := some r })

/-- A `GitBlogEntry`: `_src` models the presence of the `_src`
attribute tested with `hasattr` (unset on construction). -/
structure GitBlogEntry where
  title : List Char
  date : List Char
  source : List Char
  _src : Option (List Char)

/-- Result of one `GitBlogEntry.read()` call: the text returned, the
state after the call, and how many times the external clone operation
ran during the call. -/
structure GitReadResult where
  text : List Char
  state : GitBlogEntry
  clones : Nat

/-- `GitBlogEntry.read`: clone and read `README.rst` only when the
`_src` attribute is absent, then return the cached attribute. -/
def GitBlogEntry.read (clone : List Char → List Char) (e : GitBlogEntry) :
    GitReadResult :=
  match e._src with
  | some s => ⟨s, e, 0⟩
  | none =>
    let s := clone e.source
    ⟨s, { e with _src := some s }, 1⟩

/-- The body of the `make_index_html` loop for one entry `s`: truncate
`s.get_source()` to 300 characters, replace `=` by `-`, rewrite line 0
to a hyperlink and line 1 to a dash underline, and append the
`... Read more` tail.  `none` models the `IndexError` raised by
`lines[1] = ...` when the snippet has fewer than two lines. -/
def excerptBlock (e : BlogEntry) : Option (List Char) :=
  let snippet := pyReplace "=".data "-".data (e.get_source.take 300)
  match pySplit '\n' snippet with
  | l0 :: _ :: rest =>
    let n0 := "`".data ++ l0 ++ " <".data ++ e.filename ++ ">`_".data
    some (pyJoin '\n' (n0 :: List.replicate n0.length '-' :: rest)
      ++ " ... ".data
      ++ "`Read more <".data ++ e.filename ++ ">`__\n\n".data)
  | _ => none

/-- The heading with which `make_index_html` seeds the index markup. -/
def indexHeading : List Char := "Latest Posts\n============\n\n".data

/-- The markup accumulation of `make_index_html` (lines 140-151): start
from the heading, then append the excerpt block of each of the first
six entries in order; `none` propagates a failed block. -/
def make_index_rst (sources : List BlogEntry) : Option (List Char) :=
  (sources.take 6).foldlM
    (fun rst s => (excerptBlock s).map (fun b => rst ++ b))
    indexHeading

/-- `make_index_html`: render the accumulated markup once, with no
comment identifier. -/
def make_index_html (render : List Char → List Char)
    (sources : List BlogEntry) : Option (List Char) :=
  (make_index_rst sources).map (fun rst => compile_rst render rst none)

/-! ### Equations and basic lemmas for `pyReplace` and `countOccs` -/

theorem pyReplaceF_fuel (pat repl : List Char) :
    ∀ (f f' : Nat) (s : List Char), s.length ≤ f → s.length ≤ f' →
      pyReplaceF pat repl f s = pyReplaceF pat repl f' s := by
  intro f
  induction f with
  | zero =>
    intro f' s hs _
    rw [List.length_eq_zero.mp (Nat.le_zero.mp hs)]
    cases f' <;> rfl
  | succ f ih =>
    intro f' s hs hs'
    match s with
    | [] => cases f' <;> rfl
    | c :: rest =>
      match f' with
      | 0 => simp at hs'
      | f' + 1 =>
        simp only [pyReplaceF]
        split
        · next h =>
          have hplen : 0 < pat.length := List.length_pos.mpr h.1
          have hd : (List.drop pat.length (c :: rest)).length ≤ rest.length := by
            simp only [List.length_drop, List.length_cons]; omega
          exact congrArg (repl ++ ·)
            (ih _ _ (le_trans hd (Nat.le_of_succ_le_succ hs))
              (le_trans hd (Nat.le_of_succ_le_succ hs')))
        · exact congrArg (c :: ·)
            (ih _ rest (Nat.le_of_succ_le_succ hs) (Nat.le_of_succ_le_succ hs'))

theorem pyReplaceF_eq (pat repl : List Char) (f : Nat) (s : List Char)
    (hs : s.length ≤ f) :
    pyReplaceF pat repl f s = pyReplaceF pat repl s.length s :=
  pyReplaceF_fuel pat repl f s.length s hs (Nat.le_refl _)

theorem pyReplace_nil (pat repl : List Char) : pyReplace pat repl [] = [] := rfl

theorem pyReplace_cons (pat repl : List Char) (c : Char) (rest : List Char) :
    pyReplace pat repl (c :: rest) =
      if pat ≠ [] ∧ pat <+: (c :: rest) then
        repl ++ pyReplace pat repl (List.drop pat.length (c :: rest))
      else
        c :: pyReplace pat repl rest := by
  show pyReplaceF pat repl (rest.length + 1) (c :: rest) = _
  simp only [pyReplaceF]
  split
  · next h =>
    have hplen : 0 < pat.length := List.length_pos.mpr h.1
    rw [pyReplaceF_eq pat repl rest.length _
      (by simp only [List.length_drop, List.length_cons]; omega)]
    rfl
  · rw [pyReplaceF_eq pat repl rest.length rest (Nat.le_refl _)]
    rfl

theorem countOccs_nil (pat : List Char) : countOccs pat [] = 0 := rfl

theorem countOccs_cons (pat : List Char) (c : Char) (rest : List Char) :
    countOccs pat (c :: rest) =
      (if pat <+: (c :: rest) then 1 else 0) + countOccs pat rest := rfl

theorem pyReplace_no_occurrence (pat repl : List Char) :
    ∀ (s : List Char), ¬ pat <:+: s → pyReplace pat repl s = s := by
  intro s
  induction s with
  | nil => intro _; rfl
  | cons c rest ih =>
    intro h
    rw [pyReplace_cons, if_neg]
    · rw [ih (fun hin => h (hin.trans (List.suffix_cons c rest).isInfix))]
    · rintro ⟨-, hp⟩
      exact h hp.isInfix

theorem countOccs_le_append (pat x y : List Char) :
    countOccs pat y ≤ countOccs pat (x ++ y) := by
  induction x with
  | nil => simp
  | cons c x' ih =>
    simp only [List.cons_append, countOccs_cons]
    split <;> omega

theorem one_le_countOccs (pat : List Char) (hne : pat ≠ []) :
    ∀ (u v : List Char), 1 ≤ countOccs pat (u ++ pat ++ v) := by
  intro u
  induction u with
  | nil =>
    intro v
    obtain ⟨p, ps, rfl⟩ : ∃ p ps, pat = p :: ps := by
      cases pat with
      | nil => exact absurd rfl hne
      | cons p ps => exact ⟨p, ps, rfl⟩
    simp only [List.nil_append]
    rw [show (p :: ps) ++ v = p :: (ps ++ v) from rfl, countOccs_cons,
      if_pos (show (p :: ps) <+: p :: (ps ++ v) from List.prefix_append (p :: ps) v)]
    omega
  | cons c u' ih =>
    intro v
    have := ih v
    simp only [List.cons_append, countOccs_cons]
    split <;> omega

theorem not_infix_of_countOccs_eq_zero (pat s : List Char) (hne : pat ≠ [])
    (h : countOccs pat s = 0) : ¬ pat <:+: s := by
  rintro ⟨u, v, rfl⟩
  have := one_le_countOccs pat hne u v
  omega

theorem pyReplace_single (pat repl : List Char) (hne : pat ≠ []) :
    ∀ (a b : List Char), countOccs pat (a ++ pat ++ b) = 1 →
      pyReplace pat repl (a ++ pat ++ b) = a ++ repl ++ b := by
  intro a
  induction a with
  | nil =>
    intro b h
    obtain ⟨p, ps, rfl⟩ : ∃ p ps, pat = p :: ps := by
      cases pat with
      | nil => exact absurd rfl hne
      | cons p ps => exact ⟨p, ps, rfl⟩
    simp only [List.nil_append] at h ⊢
    rw [show (p :: ps) ++ b = p :: (ps ++ b) from rfl] at h ⊢
    have hpre : (p :: ps) <+: p :: (ps ++ b) :=
      show (p :: ps) <+: p :: (ps ++ b) from List.prefix_append (p :: ps) b
    rw [countOccs_cons, if_pos hpre] at h
    have hzero : countOccs (p :: ps) b = 0 := by
      have := countOccs_le_append (p :: ps) ps b
      omega
    rw [pyReplace_cons, if_pos ⟨hne, hpre⟩]
    simp only [List.length_cons, List.drop_succ_cons, List.drop_left]
    rw [pyReplace_no_occurrence _ _ b
      (not_infix_of_countOccs_eq_zero _ _ hne hzero)]
  | cons c a' ih =>
    intro b h
    simp only [List.cons_append] at h ⊢
    have h1 := one_le_countOccs pat hne a' b
    rw [countOccs_cons] at h
    have hnp : ¬ pat <+: c :: (a' ++ pat ++ b) := by
      intro hp
      rw [if_pos hp] at h
      omega
    rw [if_neg hnp, Nat.zero_add] at h
    rw [pyReplace_cons, if_neg (fun hc => hnp hc.2), ih b h]

/-! ### Counting occurrences across concatenations

`countOccs pat (x ++ y)` is the sum of the two counts as soon as no
occurrence of `pat` straddles the boundary; the straddle is excluded by
a condition on a proper suffix of `x` or a proper prefix of `y`. -/

theorem prefix_of_prefix_append (u v w : List Char) (h : u <+: v ++ w)
    (hl : u.length ≤ v.length) : u <+: v := by
  obtain ⟨t, ht⟩ := h
  have h1 : (u ++ t).take u.length = u := List.take_left u t
  rw [ht, List.take_append_eq_append_take, Nat.sub_eq_zero_of_le hl,
    List.take_zero, List.append_nil] at h1
  exact h1 ▸ List.take_prefix u.length v

theorem suffix_of_suffix_append (u v w : List Char) (h : u <:+ v ++ w)
    (hl : u.length ≤ w.length) : u <:+ w := by
  rw [← List.reverse_prefix] at h ⊢
  rw [List.reverse_append] at h
  exact prefix_of_prefix_append _ _ _ h (by simpa using hl)

theorem prefix_head_eq {u y : List Char} (h : u <+: y) (hu : u ≠ []) :
    u.head? = y.head? := by
  obtain ⟨t, rfl⟩ := h
  cases u with
  | nil => exact absurd rfl hu
  | cons a u' => rfl

theorem countOccs_append (pat : List Char) :
    ∀ (x y : List Char),
      (∀ k, 0 < k → k < pat.length →
        ¬ (pat.take k <:+ x ∧ pat.drop k <+: y)) →
      countOccs pat (x ++ y) = countOccs pat x + countOccs pat y := by
  intro x
  induction x with
  | nil => intro y _; simp [countOccs_nil]
  | cons c x' ih =>
    intro y h
    have h' : ∀ k, 0 < k → k < pat.length →
        ¬ (pat.take k <:+ x' ∧ pat.drop k <+: y) :=
      fun k hk0 hkl hc =>
        h k hk0 hkl ⟨hc.1.trans (List.suffix_cons c x'), hc.2⟩
    simp only [List.cons_append, countOccs_cons]
    have hiff : pat <+: c :: (x' ++ y) ↔ pat <+: c :: x' := by
      constructor
      · intro hp
        by_cases hl : pat.length ≤ (c :: x').length
        · exact prefix_of_prefix_append pat (c :: x') y hp hl
        · exfalso
          obtain ⟨t, ht⟩ := hp
          have hn0 : 0 < (c :: x').length := by simp
          have hnl : (c :: x').length < pat.length := by omega
          apply h (c :: x').length hn0 hnl
          constructor
          · have h1 : (pat ++ t).take (c :: x').length = c :: x' := by
              rw [ht]
              exact List.take_left (c :: x') y
            rw [List.take_append_eq_append_take,
              Nat.sub_eq_zero_of_le (Nat.le_of_lt hnl),
              List.take_zero, List.append_nil] at h1
            rw [h1]
          · have h2 : (pat ++ t).drop (c :: x').length = y := by
              rw [ht]
              exact List.drop_left (c :: x') y
            rw [List.drop_append_eq_append_drop,
              Nat.sub_eq_zero_of_le (Nat.le_of_lt hnl),
              List.drop_zero] at h2
            exact ⟨t, h2⟩
      · intro hp
        exact hp.trans (List.prefix_append (c :: x') y)
    rw [if_congr hiff rfl rfl, ih y h']
    omega

theorem countOccs_append_head (pat x y : List Char) (ch : Char)
    (hy : y.head? = some ch)
    (hch : ∀ i : Fin pat.length, 0 < i.val → pat.get i ≠ ch) :
    countOccs pat (x ++ y) = countOccs pat x + countOccs pat y := by
  apply countOccs_append
  intro k hk0 hkl hky
  have hd : pat.drop k ≠ [] := by
    apply List.ne_nil_of_length_pos
    simp only [List.length_drop]
    omega
  have hh : (pat.drop k).head? = some ch := (prefix_head_eq hky.2 hd).trans hy
  rw [List.drop_eq_getElem_cons hkl, List.head?_cons, Option.some_inj] at hh
  exact hch ⟨k, hkl⟩ hk0 (by rw [List.get_eq_getElem]; exact hh)

theorem countOccs_append_left (pat x y : List Char)
    (hx : ∀ i : Fin pat.length, 0 < i.val → ¬ pat.take i.val <:+ x) :
    countOccs pat (x ++ y) = countOccs pat x + countOccs pat y := by
  apply countOccs_append
  intro k hk0 hkl hky
  exact hx ⟨k, hkl⟩ hk0 hky.1

theorem countOccs_append_left' (pat x₀ k y : List Char)
    (hlen : pat.length ≤ k.length + 1)
    (hk : ∀ i : Fin pat.length, 0 < i.val → ¬ pat.take i.val <:+ k) :
    countOccs pat ((x₀ ++ k) ++ y) = countOccs pat (x₀ ++ k) + countOccs pat y := by
  apply countOccs_append
  intro j hj0 hjl hjy
  apply hk ⟨j, hjl⟩ hj0
  apply suffix_of_suffix_append _ x₀ k hjy.1
  simp only [List.length_take]
  omega

/-! ### Occurrence bookkeeping for the four splicing replacements -/

theorem countOccs_step (pat x k rest : List Char)
    (hlen : pat.length ≤ k.length + 1)
    (hdropk : ∀ i : Fin pat.length, 0 < i.val → ¬ pat.drop i.val <+: k)
    (htakek : ∀ i : Fin pat.length, 0 < i.val → ¬ pat.take i.val <:+ k) :
    countOccs pat (x ++ (k ++ rest)) =
      countOccs pat x + countOccs pat k + countOccs pat rest := by
  have h1 : countOccs pat (x ++ (k ++ rest)) =
      countOccs pat x + countOccs pat (k ++ rest) := by
    apply countOccs_append
    intro j hj0 hjl hc
    have hlen2 : (pat.drop j).length ≤ k.length := by
      simp only [List.length_drop]; omega
    exact hdropk ⟨j, hjl⟩ hj0 (prefix_of_prefix_append _ _ _ hc.2 hlen2)
  have h2 : countOccs pat (k ++ rest) = countOccs pat k + countOccs pat rest :=
    countOccs_append_left _ _ _ htakek
  omega

set_option maxRecDepth 40000 in
theorem countOccs_append_cf (x i rest : List Char) :
    countOccs bodyEndMarker (x ++ (commentFooter i ++ rest)) =
      countOccs bodyEndMarker x + countOccs bodyEndMarker (commentFooter i ++ rest) := by
  apply countOccs_append
  intro j hj0 hjl hc
  have hre : commentFooter i ++ rest =
      DISQUS_a ++ (("http://johannes.tax/".data ++ i ++ DISQUS_b ++ i ++ DISQUS_c)
        ++ rest) := by
    simp [commentFooter, DISQUS, List.append_assoc]
  rw [hre] at hc
  have hda : 6 ≤ DISQUS_a.length := by decide
  have hlen2 : (bodyEndMarker.drop j).length ≤ DISQUS_a.length := by
    simp only [List.length_drop]
    have : bodyEndMarker.length = 7 := by decide
    omega
  have hp : bodyEndMarker.drop j <+: DISQUS_a :=
    prefix_of_prefix_append _ _ _ hc.2 hlen2
  exact (by decide : ∀ ii : Fin bodyEndMarker.length, 0 < ii.val →
    ¬ bodyEndMarker.drop ii.val <+: DISQUS_a) ⟨j, hjl⟩ hj0 hp

set_option maxRecDepth 40000 in
theorem countOccs_cf_append (i y : List Char)
    (hid : countOccs bodyEndMarker (commentFooter i) = 0) :
    countOccs bodyEndMarker (commentFooter i ++ y) = countOccs bodyEndMarker y := by
  have he2 : commentFooter i =
      (DISQUS_a ++ "http://johannes.tax/".data ++ i ++ DISQUS_b ++ i) ++ DISQUS_c :=
    rfl
  have he : commentFooter i ++ y =
      ((DISQUS_a ++ "http://johannes.tax/".data ++ i ++ DISQUS_b ++ i) ++ DISQUS_c)
        ++ y := by
    rw [← he2]
  rw [he, countOccs_append_left' _ _ _ _ (by decide) (by decide), ← he2, hid,
    Nat.zero_add]

set_option maxRecDepth 40000 in
theorem bd_zeros (a b c d : List Char)
    (h : countOccs bodyMarker
      (a ++ headMarker ++ b ++ bodyMarker ++ c ++ bodyEndMarker ++ d) = 1) :
    countOccs bodyMarker a = 0 ∧ countOccs bodyMarker b = 0 ∧
      countOccs bodyMarker c = 0 ∧ countOccs bodyMarker d = 0 := by
  have hgroup : countOccs bodyMarker
        (a ++ headMarker ++ b ++ bodyMarker ++ c ++ bodyEndMarker ++ d)
      = countOccs bodyMarker
        (a ++ (headMarker ++ (b ++ (bodyMarker ++ (c ++ (bodyEndMarker ++ d)))))) :=
    congrArg _ (by simp [List.append_assoc])
  have u1 : countOccs bodyMarker
        (a ++ (headMarker ++ (b ++ (bodyMarker ++ (c ++ (bodyEndMarker ++ d))))))
      = countOccs bodyMarker a + countOccs bodyMarker headMarker
        + countOccs bodyMarker (b ++ (bodyMarker ++ (c ++ (bodyEndMarker ++ d)))) :=
    countOccs_step _ _ _ _ (by decide) (by decide) (by decide)
  have u2 : countOccs bodyMarker (b ++ (bodyMarker ++ (c ++ (bodyEndMarker ++ d))))
      = countOccs bodyMarker b + countOccs bodyMarker bodyMarker
        + countOccs bodyMarker (c ++ (bodyEndMarker ++ d)) :=
    countOccs_step _ _ _ _ (by decide) (by decide) (by decide)
  have u3 : countOccs bodyMarker (c ++ (bodyEndMarker ++ d))
      = countOccs bodyMarker c + countOccs bodyMarker bodyEndMarker
        + countOccs bodyMarker d :=
    countOccs_step _ _ _ _ (by decide) (by decide) (by decide)
  have k1 : countOccs bodyMarker headMarker = 0 := by decide
  have k2 : countOccs bodyMarker bodyMarker = 1 := by decide
  have k3 : countOccs bodyMarker bodyEndMarker = 0 := by decide
  refine ⟨by omega, by omega, by omega, by omega⟩

set_option maxRecDepth 40000 in
theorem cb_zeros (a b c d : List Char)
    (h : countOccs bodyEndMarker
      (a ++ headMarker ++ b ++ bodyMarker ++ c ++ bodyEndMarker ++ d) = 1) :
    countOccs bodyEndMarker a = 0 ∧ countOccs bodyEndMarker b = 0 ∧
      countOccs bodyEndMarker c = 0 ∧ countOccs bodyEndMarker d = 0 := by
  have hgroup : countOccs bodyEndMarker
        (a ++ headMarker ++ b ++ bodyMarker ++ c ++ bodyEndMarker ++ d)
      = countOccs bodyEndMarker
        (a ++ (headMarker ++ (b ++ (bodyMarker ++ (c ++ (bodyEndMarker ++ d)))))) :=
    congrArg _ (by simp [List.append_assoc])
  have u1 : countOccs bodyEndMarker
        (a ++ (headMarker ++ (b ++ (bodyMarker ++ (c ++ (bodyEndMarker ++ d))))))
      = countOccs bodyEndMarker a + countOccs bodyEndMarker headMarker
        + countOccs bodyEndMarker (b ++ (bodyMarker ++ (c ++ (bodyEndMarker ++ d)))) :=
    countOccs_step _ _ _ _ (by decide) (by decide) (by decide)
  have u2 : countOccs bodyEndMarker (b ++ (bodyMarker ++ (c ++ (bodyEndMarker ++ d))))
      = countOccs bodyEndMarker b + countOccs bodyEndMarker bodyMarker
        + countOccs bodyEndMarker (c ++ (bodyEndMarker ++ d)) :=
    countOccs_step _ _ _ _ (by decide) (by decide) (by decide)
  have u3 : countOccs bodyEndMarker (c ++ (bodyEndMarker ++ d))
      = countOccs bodyEndMarker c + countOccs bodyEndMarker bodyEndMarker
        + countOccs bodyEndMarker d :=
    countOccs_step _ _ _ _ (by decide) (by decide) (by decide)
  have k1 : countOccs bodyEndMarker headMarker = 0 := by decide
  have k2 : countOccs bodyEndMarker bodyMarker = 0 := by decide
  have k3 : countOccs bodyEndMarker bodyEndMarker = 1 := by decide
  refine ⟨by omega, by omega, by omega, by omega⟩

set_option maxRecDepth 40000 in
theorem bd_count_r1 (a b c d : List Char)
    (ha : countOccs bodyMarker a = 0) (hb : countOccs bodyMarker b = 0)
    (hc : countOccs bodyMarker c = 0) (hd : countOccs bodyMarker d = 0) :
    countOccs bodyMarker
      ((a ++ headRepl ++ b) ++ bodyMarker ++ (c ++ (bodyEndMarker ++ d))) = 1 := by
  have hgroup : countOccs bodyMarker
        ((a ++ headRepl ++ b) ++ bodyMarker ++ (c ++ (bodyEndMarker ++ d)))
      = countOccs bodyMarker
        (a ++ (headRepl ++ (b ++ (bodyMarker ++ (c ++ (bodyEndMarker ++ d)))))) :=
    congrArg _ (by simp [List.append_assoc])
  have u1 : countOccs bodyMarker
        (a ++ (headRepl ++ (b ++ (bodyMarker ++ (c ++ (bodyEndMarker ++ d))))))
      = countOccs bodyMarker a + countOccs bodyMarker headRepl
        + countOccs bodyMarker (b ++ (bodyMarker ++ (c ++ (bodyEndMarker ++ d)))) :=
    countOccs_step _ _ _ _ (by decide) (by decide) (by decide)
  have u2 : countOccs bodyMarker (b ++ (bodyMarker ++ (c ++ (bodyEndMarker ++ d))))
      = countOccs bodyMarker b + countOccs bodyMarker bodyMarker
        + countOccs bodyMarker (c ++ (bodyEndMarker ++ d)) :=
    countOccs_step _ _ _ _ (by decide) (by decide) (by decide)
  have u3 : countOccs bodyMarker (c ++ (bodyEndMarker ++ d))
      = countOccs bodyMarker c + countOccs bodyMarker bodyEndMarker
        + countOccs bodyMarker d :=
    countOccs_step _ _ _ _ (by decide) (by decide) (by decide)
  have k1 : countOccs bodyMarker headRepl = 0 := by decide
  have k2 : countOccs bodyMarker bodyMarker = 1 := by decide
  have k3 : countOccs bodyMarker bodyEndMarker = 0 := by decide
  omega

set_option maxRecDepth 40000 in
set_option maxHeartbeats 1000000 in
theorem cb_count_r2 (a b c d : List Char)
    (ha : countOccs bodyEndMarker a = 0) (hb : countOccs bodyEndMarker b = 0)
    (hc : countOccs bodyEndMarker c = 0) (hd : countOccs bodyEndMarker d = 0) :
    countOccs bodyEndMarker
      ((a ++ headRepl ++ b ++ bodyRepl ++ c) ++ bodyEndMarker ++ d) = 1 := by
  have hgroup : countOccs bodyEndMarker
        ((a ++ headRepl ++ b ++ bodyRepl ++ c) ++ bodyEndMarker ++ d)
      = countOccs bodyEndMarker
        (a ++ (headRepl ++ (b ++ (bodyRepl ++ (c ++ (bodyEndMarker ++ d)))))) :=
    congrArg _ (by simp [List.append_assoc])
  have u1 : countOccs bodyEndMarker
        (a ++ (headRepl ++ (b ++ (bodyRepl ++ (c ++ (bodyEndMarker ++ d))))))
      = countOccs bodyEndMarker a + countOccs bodyEndMarker headRepl
        + countOccs bodyEndMarker (b ++ (bodyRepl ++ (c ++ (bodyEndMarker ++ d)))) :=
    countOccs_step _ _ _ _ (by decide) (by decide) (by decide)
  have u2 : countOccs bodyEndMarker (b ++ (bodyRepl ++ (c ++ (bodyEndMarker ++ d))))
      = countOccs bodyEndMarker b + countOccs bodyEndMarker bodyRepl
        + countOccs bodyEndMarker (c ++ (bodyEndMarker ++ d)) :=
    countOccs_step _ _ _ _ (by decide) (by decide) (by decide)
  have u3 : countOccs bodyEndMarker (c ++ (bodyEndMarker ++ d))
      = countOccs bodyEndMarker c + countOccs bodyEndMarker bodyEndMarker
        + countOccs bodyEndMarker d :=
    countOccs_step _ _ _ _ (by decide) (by decide) (by decide)
  have k1 : countOccs bodyEndMarker headRepl = 0 := by decide
  have k2 : countOccs bodyEndMarker bodyRepl = 0 := by decide
  have k3 : countOccs bodyEndMarker bodyEndMarker = 1 := by decide
  omega

set_option maxRecDepth 40000 in
set_option maxHeartbeats 1000000 in
theorem cb_count_r3 (a b c d i : List Char)
    (ha : countOccs bodyEndMarker a = 0) (hb : countOccs bodyEndMarker b = 0)
    (hc : countOccs bodyEndMarker c = 0) (hd : countOccs bodyEndMarker d = 0)
    (hid : countOccs bodyEndMarker (commentFooter i) = 0) :
    countOccs bodyEndMarker
      ((a ++ headRepl ++ b ++ bodyRepl ++ c ++ commentFooter i)
        ++ bodyEndMarker ++ d) = 1 := by
  have hgroup : countOccs bodyEndMarker
        ((a ++ headRepl ++ b ++ bodyRepl ++ c ++ commentFooter i)
          ++ bodyEndMarker ++ d)
      = countOccs bodyEndMarker
        (a ++ (headRepl ++ (b ++ (bodyRepl ++
          (c ++ (commentFooter i ++ (bodyEndMarker ++ d))))))) :=
    congrArg _ (by simp [List.append_assoc])
  have u1 : countOccs bodyEndMarker
        (a ++ (headRepl ++ (b ++ (bodyRepl ++
          (c ++ (commentFooter i ++ (bodyEndMarker ++ d)))))))
      = countOccs bodyEndMarker a + countOccs bodyEndMarker headRepl
        + countOccs bodyEndMarker
          (b ++ (bodyRepl ++ (c ++ (commentFooter i ++ (bodyEndMarker ++ d))))) :=
    countOccs_step _ _ _ _ (by decide) (by decide) (by decide)
  have u2 : countOccs bodyEndMarker
        (b ++ (bodyRepl ++ (c ++ (commentFooter i ++ (bodyEndMarker ++ d)))))
      = countOccs bodyEndMarker b + countOccs bodyEndMarker bodyRepl
        + countOccs bodyEndMarker
          (c ++ (commentFooter i ++ (bodyEndMarker ++ d))) :=
    countOccs_step _ _ _ _ (by decide) (by decide) (by decide)
  have u3 : countOccs bodyEndMarker (c ++ (commentFooter i ++ (bodyEndMarker ++ d)))
      = countOccs bodyEndMarker c
        + countOccs bodyEndMarker (commentFooter i ++ (bodyEndMarker ++ d)) :=
    countOccs_append_cf c i (bodyEndMarker ++ d)
  have u4 : countOccs bodyEndMarker (commentFooter i ++ (bodyEndMarker ++ d))
      = countOccs bodyEndMarker (bodyEndMarker ++ d) :=
    countOccs_cf_append i _ hid
  have u5 : countOccs bodyEndMarker (bodyEndMarker ++ d)
      = countOccs bodyEndMarker bodyEndMarker + countOccs bodyEndMarker d :=
    countOccs_append_left _ _ _ (by decide)
  have k1 : countOccs bodyEndMarker headRepl = 0 := by decide
  have k2 : countOccs bodyEndMarker bodyRepl = 0 := by decide
  have k3 : countOccs bodyEndMarker bodyEndMarker = 1 := by decide
  omega

set_option maxRecDepth 40000 in
set_option maxHeartbeats 1000000 in
/-- C3 (amended): for rendered HTML containing exactly one occurrence of
each marker, splicing inserts the icon fragment right after `"<head>"`,
the navigation header right after `"<body>"`, and — provided the
supplied comment identifier generates a comment fragment that itself
contains no occurrence of `"</body>"` — the comment widget followed by
the footer right before `"</body>"`, the widget preceding the footer;
a replacement whose marker is absent from a string leaves that string
unchanged. -/
theorem c3_splice_fragments (a b c d id : List Char)
    (h1 : countOccs headMarker
      (a ++ headMarker ++ b ++ bodyMarker ++ c ++ bodyEndMarker ++ d) = 1)
    (h2 : countOccs bodyMarker
      (a ++ headMarker ++ b ++ bodyMarker ++ c ++ bodyEndMarker ++ d) = 1)
    (h3 : countOccs bodyEndMarker
      (a ++ headMarker ++ b ++ bodyMarker ++ c ++ bodyEndMarker ++ d) = 1)
    (hid : countOccs bodyEndMarker (commentFooter id) = 0) :
    splice_fragments
        (a ++ headMarker ++ b ++ bodyMarker ++ c ++ bodyEndMarker ++ d) (some id)
      = a ++ headRepl ++ b ++ bodyRepl ++ c ++ commentFooter id ++ FOOTER
          ++ bodyEndMarker ++ d
    ∧ (∀ s, ¬ headMarker <:+: s → pyReplace headMarker headRepl s = s)
    ∧ (∀ s, ¬ bodyMarker <:+: s → pyReplace bodyMarker bodyRepl s = s)
    ∧ (∀ s j, ¬ bodyEndMarker <:+: s →
        pyReplace bodyEndMarker (commentFooter j ++ bodyEndMarker) s = s
        ∧ pyReplace bodyEndMarker (FOOTER ++ bodyEndMarker) s = s) := by
  refine ⟨?_, fun s hs => pyReplace_no_occurrence _ _ s hs,
    fun s hs => pyReplace_no_occurrence _ _ s hs,
    fun s j hs => ⟨pyReplace_no_occurrence _ _ s hs, pyReplace_no_occurrence _ _ s hs⟩⟩
  obtain ⟨ha2, hb2, hc2, hd2⟩ := bd_zeros a b c d h2
  obtain ⟨ha3, hb3, hc3, hd3⟩ := cb_zeros a b c d h3
  have e1 : a ++ headMarker ++ b ++ bodyMarker ++ c ++ bodyEndMarker ++ d
      = a ++ headMarker ++ (b ++ (bodyMarker ++ (c ++ (bodyEndMarker ++ d)))) := by
    simp [List.append_assoc]
  rw [e1] at h1
  simp only [splice_fragments]
  rw [e1]
  rw [pyReplace_single _ _ (by decide) _ _ h1]
  have e2 : a ++ headRepl ++ (b ++ (bodyMarker ++ (c ++ (bodyEndMarker ++ d))))
      = (a ++ headRepl ++ b) ++ bodyMarker ++ (c ++ (bodyEndMarker ++ d)) := by
    simp [List.append_assoc]
  rw [e2, pyReplace_single _ _ (by decide) _ _ (bd_count_r1 a b c d ha2 hb2 hc2 hd2)]
  have e3 : (a ++ headRepl ++ b) ++ bodyRepl ++ (c ++ (bodyEndMarker ++ d))
      = (a ++ headRepl ++ b ++ bodyRepl ++ c) ++ bodyEndMarker ++ d := by
    simp [List.append_assoc]
  rw [e3, pyReplace_single _ _ (by decide) _ _ (cb_count_r2 a b c d ha3 hb3 hc3 hd3)]
  have e4 : (a ++ headRepl ++ b ++ bodyRepl ++ c)
        ++ (commentFooter id ++ bodyEndMarker) ++ d
      = (a ++ headRepl ++ b ++ bodyRepl ++ c ++ commentFooter id)
        ++ bodyEndMarker ++ d := by
    simp [List.append_assoc]
  rw [e4, pyReplace_single _ _ (by decide) _ _
    (cb_count_r3 a b c d id ha3 hb3 hc3 hd3 hid)]
  simp [List.append_assoc]

set_option maxRecDepth 100000 in
set_option maxHeartbeats 1000000 in
/-- C3 witness: a concrete page with each marker occurring once and the
benign identifier `x.html` splices all four fragments at the claimed
positions, widget before footer. -/
theorem c3_splice_fragments_witness :
    splice_fragments
        ("A".data ++ headMarker ++ "B".data ++ bodyMarker ++ "C".data
          ++ bodyEndMarker ++ "D".data) (some "x.html".data)
      = "A".data ++ headRepl ++ "B".data ++ bodyRepl ++ "C".data
          ++ commentFooter "x.html".data ++ FOOTER ++ bodyEndMarker ++ "D".data :=
  (c3_splice_fragments "A".data "B".data "C".data "D".data "x.html".data
    (by decide) (by decide) (by decide) (by decide)).1

set_option maxRecDepth 100000 in
set_option maxHeartbeats 1000000 in
/-- C3 counterexample: `"<head><body></body>"` contains each marker
exactly once, yet with the supplied comment identifier `"</body>"` the
spliced output is not the claimed shape (the footer is also spliced
inside the comment fragment, which embeds the marker twice). -/
theorem c3_counterexample :
    countOccs headMarker "<head><body></body>".data = 1
    ∧ countOccs bodyMarker "<head><body></body>".data = 1
    ∧ countOccs bodyEndMarker "<head><body></body>".data = 1
    ∧ splice_fragments "<head><body></body>".data (some "</body>".data)
      ≠ headRepl ++ bodyRepl ++ commentFooter "</body>".data ++ FOOTER
          ++ bodyEndMarker := by
  refine ⟨by decide, by decide, by decide, by decide⟩

/-! ### Lemmas about `pySplit`, `pyJoin`, `pyInsert` and single-character
replacement -/

theorem pySplit_ne_nil (c : Char) (s : List Char) : pySplit c s ≠ [] := by
  cases s with
  | nil => simp [pySplit]
  | cons a rest =>
    simp only [pySplit]
    split
    · simp
    · split <;> simp

theorem pySplit_of_not_mem (c : Char) :
    ∀ (s : List Char), c ∉ s → pySplit c s = [s] := by
  intro s
  induction s with
  | nil => intro _; rfl
  | cons a rest ih =>
    intro h
    have ha : a ≠ c := fun hac => h (hac ▸ List.mem_cons_self a rest)
    have hr : c ∉ rest := fun hc => h (List.mem_cons_of_mem a hc)
    simp only [pySplit, ih hr]
    rw [if_neg ha]

theorem two_le_pySplit_of_mem (c : Char) :
    ∀ (s : List Char), c ∈ s → 2 ≤ (pySplit c s).length := by
  intro s
  induction s with
  | nil => intro h; simp at h
  | cons a rest ih =>
    intro h
    simp only [pySplit]
    cases hsp : pySplit c rest with
    | nil => exact absurd hsp (pySplit_ne_nil c rest)
    | cons l ls =>
      by_cases hac : a = c
      · simp [hac]
      · have hcr : c ∈ rest := by
          rcases List.mem_cons.mp h with h1 | h2
          · exact absurd h1.symm hac
          · exact h2
        have h2 := ih hcr
        rw [hsp] at h2
        simp only [List.length_cons] at h2
        simp only [hac, if_false, List.length_cons]
        omega

theorem pyInsert_length (x : α) :
    ∀ (i : Nat) (l : List α), (pyInsert i x l).length = l.length + 1 := by
  intro i
  induction i with
  | zero => intro l; cases l <;> simp [pyInsert]
  | succ n ih =>
    intro l
    cases l with
    | nil => simp [pyInsert]
    | cons a t => simp [pyInsert, ih t]

theorem mem_pyJoin_sep (c : Char) :
    ∀ (ls : List (List Char)), 2 ≤ ls.length → c ∈ pyJoin c ls
  | l :: l' :: t, _ => by simp [pyJoin]
  | [], h => by simp at h
  | [l], h => by simp at h

/-- A single-character Python replace is a character map. -/
theorem pyReplace_one (c d : Char) :
    ∀ (s : List Char),
      pyReplace [c] [d] s = s.map (fun x => if x = c then d else x) := by
  intro s
  induction s with
  | nil => rfl
  | cons x rest ih =>
    rw [pyReplace_cons]
    by_cases hx : x = c
    · subst hx
      rw [if_pos ⟨by simp, List.cons_prefix_cons.mpr ⟨rfl, List.nil_prefix⟩⟩]
      simp [ih]
    · rw [if_neg]
      · simp [ih, hx]
      · rintro ⟨-, hp⟩
        exact hx (List.cons_prefix_cons.mp hp).1.symm

theorem mem_pyReplace_one (c d x : Char) (s : List Char) (hxc : x ≠ c)
    (hxd : x ≠ d) : x ∈ pyReplace [c] [d] s ↔ x ∈ s := by
  rw [pyReplace_one, List.mem_map]
  constructor
  · rintro ⟨a, ha, hax⟩
    by_cases hac : a = c
    · rw [if_pos hac] at hax
      exact absurd hax.symm hxd
    · rw [if_neg hac] at hax
      exact hax ▸ ha
  · intro hx
    refine ⟨x, hx, ?_⟩
    rw [if_neg hxc]

theorem not_mem_pyReplace_one_self (c d : Char) (hcd : c ≠ d) (s : List Char) :
    c ∉ pyReplace [c] [d] s := by
  rw [pyReplace_one, List.mem_map]
  rintro ⟨a, -, hax⟩
  by_cases hac : a = c
  · rw [if_pos hac] at hax
    exact hcd hax.symm
  · rw [if_neg hac] at hax
    exact hac (hax ▸ rfl)

/-! ### The excerpt step of the index builder -/

/-- The `"\nPosted on %s\n"` element inserted by `get_source`. -/
def postedLine (date : List Char) : List Char :=
  "\nPosted on ".data ++ date ++ "\n".data

theorem get_source_eq (e : BlogEntry) :
    e.get_source = pyJoin '\n' (pyInsert 2 (postedLine e.date) (pySplit '\n' e.raw)) := rfl

/-- The excerpt step fails exactly when the 300-character snippet of
`get_source` has no newline (so the split yields a single line). -/
theorem excerptBlock_none_iff (e : BlogEntry) :
    excerptBlock e = none ↔ '\n' ∉ e.get_source.take 300 := by
  have hmem : '\n' ∈ pyReplace "=".data "-".data (e.get_source.take 300)
      ↔ '\n' ∈ e.get_source.take 300 :=
    mem_pyReplace_one '=' '-' '\n' _ (by decide) (by decide)
  constructor
  · intro hnone hin
    have h2 := two_le_pySplit_of_mem '\n' _ (hmem.mpr hin)
    simp only [excerptBlock] at hnone
    rcases hsp : pySplit '\n' (pyReplace "=".data "-".data (e.get_source.take 300))
      with - | ⟨l0, - | ⟨l1, rest⟩⟩
    · exact pySplit_ne_nil _ _ hsp
    · rw [hsp] at h2; simp at h2
    · rw [hsp] at hnone; simp at hnone
  · intro hout
    have hnm : '\n' ∉ pyReplace "=".data "-".data (e.get_source.take 300) :=
      fun hin => hout (hmem.mp hin)
    simp only [excerptBlock]
    rw [pySplit_of_not_mem _ _ hnm]

theorem two_le_lines_get_source (e : BlogEntry) :
    2 ≤ (pySplit '\n' e.get_source).length := by
  apply two_le_pySplit_of_mem
  rw [get_source_eq]
  apply mem_pyJoin_sep
  rw [pyInsert_length]
  have hpos : 0 < (pySplit '\n' e.raw).length :=
    List.length_pos.mpr (pySplit_ne_nil _ _)
  omega

theorem make_index_rst_single (e : BlogEntry) :
    make_index_rst [e] = (excerptBlock e).map (fun b => indexHeading ++ b) := by
  simp only [make_index_rst, List.take, List.foldlM]
  cases excerptBlock e <;> simp

/-! ### The claims -/

/-- C1 counterexample: on the Hello-World scenario entry, `get_source`
does not return the string the claim names (the actual result has two
blank lines before the body, not one). -/
theorem c1_counterexample :
    BlogEntry.get_source ⟨"Hello World".data, "2020-01-01".data,
        "Hello\n=====\n\nBody text.\n".data, none⟩
      ≠ "Hello\n=====\n\nPosted on 2020-01-01\n\nBody text.\n".data := by decide

/-- C1 (amended): on the Hello-World scenario entry, `get_source`
returns exactly `"Hello\n=====\n\nPosted on 2020-01-01\n\n\nBody text.\n"`:
the inserted element `"\nPosted on 2020-01-01\n"` is placed at index 2
of the line list, so its trailing newline combines with the original
blank line to produce two blank lines before the body. -/
theorem c1_get_source_hello_world :
    BlogEntry.get_source ⟨"Hello World".data, "2020-01-01".data,
        "Hello\n=====\n\nBody text.\n".data, none⟩
      = "Hello\n=====\n\nPosted on 2020-01-01\n\n\nBody text.\n".data := by decide

/-- C7: each entry's filename is its title with every space replaced by
an underscore (all other characters unchanged) followed by `".html"`,
and it depends only on the title, not on date, source or cache. -/
theorem c7_filename (e : BlogEntry) :
    e.filename = e.title.map (fun ch => if ch = ' ' then '_' else ch) ++ ".html".data
    ∧ ∀ (d₁ r₁ d₂ r₂ : List Char) (c₁ c₂ : Option (List Char)),
        BlogEntry.filename ⟨e.title, d₁, r₁, c₁⟩
          = BlogEntry.filename ⟨e.title, d₂, r₂, c₂⟩ := by
  constructor
  · show pyReplace [' '] ['_'] e.title ++ ".html".data = _
    rw [pyReplace_one]
  · intro _ _ _ _ _ _
    rfl

/-- C9: for every entry — whatever its raw text, including the empty
string and texts with fewer than two lines — `get_source` succeeds and
its result splits into at least two lines, and the excerpt rewrite of
the index builder fails exactly when the first 300 characters of the
`get_source` result contain no newline. -/
theorem c9_get_source_total (e : BlogEntry) :
    2 ≤ (pySplit '\n' e.get_source).length
    ∧ (excerptBlock e = none ↔ '\n' ∉ e.get_source.take 300) :=
  ⟨two_le_lines_get_source e, excerptBlock_none_iff e⟩

/-- C2 counterexample: an entry whose raw source is the single line
`"Hello"` (fewer than 2 lines) does not make the index build fail: the
index markup is produced. -/
theorem c2_counterexample :
    (pySplit '\n' "Hello".data).length < 2
    ∧ make_index_rst [⟨"T".data, "d".data, "Hello".data, none⟩] ≠ none :=
  ⟨by decide, by decide⟩

/-- C2 (amended): for an entry whose raw source has fewer than 2 lines,
building the index over a sequence containing just that entry fails
with the out-of-bounds rewrite exactly when the raw text is at least
300 characters long (otherwise the newline introduced by the inserted
date line lands inside the 300-character snippet and the rewrite
succeeds). -/
theorem c2_short_source_index (e : BlogEntry)
    (h : (pySplit '\n' e.raw).length < 2) :
    make_index_rst [e] = none ↔ 300 ≤ e.raw.length := by
  have hnm : '\n' ∉ e.raw := fun hm =>
    absurd (two_le_pySplit_of_mem _ _ hm) (by omega)
  have hgs : e.get_source = e.raw ++ '\n' :: postedLine e.date := by
    rw [get_source_eq, pySplit_of_not_mem _ _ hnm]
    rfl
  have hiff : '\n' ∈ e.get_source.take 300 ↔ e.raw.length < 300 := by
    rw [hgs]
    constructor
    · intro hm
      by_contra hge
      push_neg at hge
      rw [List.take_append_eq_append_take, Nat.sub_eq_zero_of_le hge,
        List.take_zero, List.append_nil] at hm
      exact hnm (List.mem_of_mem_take hm)
    · intro hlt
      rw [List.take_append_eq_append_take]
      apply List.mem_append_right
      have h1 : 300 - e.raw.length = (300 - e.raw.length - 1) + 1 := by omega
      rw [h1, List.take_succ_cons]
      exact List.mem_cons_self _ _
  rw [make_index_rst_single, Option.map_eq_none', excerptBlock_none_iff]
  constructor
  · intro hno
    by_contra hlt
    push_neg at hlt
    exact hno (hiff.mpr hlt)
  · intro hge hm
    have := hiff.mp hm
    omega

/-- C2 witness: the single-line entry `"Hi"` is shorter than 300
characters, so the index build over it succeeds. -/
theorem c2_short_source_index_witness :
    (pySplit '\n' "Hi".data).length < 2
    ∧ (make_index_rst [⟨"T".data, "d".data, "Hi".data, none⟩] = none ↔
        300 ≤ ("Hi".data : List Char).length) :=
  ⟨by decide, c2_short_source_index ⟨"T".data, "d".data, "Hi".data, none⟩ (by decide)⟩

/-- C5: when the 300-character `=`-defused snippet of an entry's
`get_source` splits into at least two lines, the excerpt block is the
snippet with line 0 rewritten to a hyperlink wrapping the original
first line and targeting the entry's filename, line 1 rewritten to a
dash run as long as the rewritten line 0, followed by `" ... "` and a
Read-more link to the filename; and a snippet slice containing `=` ends
with none after the replacement. -/
theorem c5_excerpt_structure (e : BlogEntry) (l0 l1 : List Char)
    (rest : List (List Char))
    (h : pySplit '\n' (pyReplace "=".data "-".data (e.get_source.take 300))
      = l0 :: l1 :: rest) :
    excerptBlock e = some (pyJoin '\n'
        (("`".data ++ l0 ++ " <".data ++ e.filename ++ ">`_".data)
          :: List.replicate
              ("`".data ++ l0 ++ " <".data ++ e.filename ++ ">`_".data).length '-'
          :: rest)
      ++ " ... ".data ++ "`Read more <".data ++ e.filename ++ ">`__\n\n".data)
    ∧ ('=' ∈ e.get_source.take 300 →
        '=' ∉ pyReplace "=".data "-".data (e.get_source.take 300)) := by
  constructor
  · simp only [excerptBlock]
    rw [h]
  · intro _
    show '=' ∉ pyReplace ['='] ['-'] (e.get_source.take 300)
    exact not_mem_pyReplace_one_self '=' '-' (by decide) _

/-- Concrete entry used to witness C5. -/
def c5wEntry : BlogEntry :=
  ⟨"T".data, "2020-01-01".data, "Hello\n=====\n\nBody.\n".data, none⟩

/-- C5 witness: the concrete excerpt of `c5wEntry`, with the hyperlink
line, the matching dash underline, and the Read-more tail. -/
theorem c5_excerpt_structure_witness :
    excerptBlock c5wEntry = some (pyJoin '\n'
        (("`".data ++ "Hello".data ++ " <".data ++ c5wEntry.filename ++ ">`_".data)
          :: List.replicate
              ("`".data ++ "Hello".data ++ " <".data ++ c5wEntry.filename
                ++ ">`_".data).length '-'
          :: [[], "Posted on 2020-01-01".data, [], [], "Body.".data, []])
      ++ " ... ".data ++ "`Read more <".data ++ c5wEntry.filename
      ++ ">`__\n\n".data) :=
  (c5_excerpt_structure c5wEntry "Hello".data "-----".data
    [[], "Posted on 2020-01-01".data, [], [], "Body.".data, []] (by decide)).1

/-- Renderer stub returning the empty string (models a failed or silent
`rst2html` run, whose captured stdout decodes to `""`). -/
def emptyRenderer : List Char → List Char := fun _ => []

/-- Renderer stub returning a fixed marker-free page. -/
def pageRenderer : List Char → List Char := fun _ => "<p>hi</p>".data

/-- Renderer stub returning `"X"`. -/
def xRenderer : List Char → List Char := fun _ => "X".data

/-- Renderer stub returning `"Y"`. -/
def yRenderer : List Char → List Char := fun _ => "Y".data

/-- A fresh concrete entry used by the C4 theorems. -/
def c4entry : BlogEntry := ⟨"T".data, "d".data, "S".data, none⟩

/-- C4 counterexample: when the renderer pipeline yields the empty
string, the second `compile()` call does not return the value produced
by the first call — it re-renders (here with a renderer returning a
different page). -/
theorem c4_counterexample :
    (BlogEntry.compile pageRenderer (BlogEntry.compile emptyRenderer c4entry).2).1
      ≠ (BlogEntry.compile emptyRenderer c4entry).1 := by decide

/-- After any `compile()` call the cache field holds exactly the value
that call returned. -/
theorem compile_state_cached (render : List Char → List Char) (e : BlogEntry) :
    ((BlogEntry.compile render e).2)._compiled
      = some ((BlogEntry.compile render e).1) := by
  cases hc : e._compiled with
  | none => simp [BlogEntry.compile, hc]
  | some s => by_cases hs : s = [] <;> simp [BlogEntry.compile, hc, hs]

/-- C4 (amended): provided the first `compile()` produced a non-empty
string, a second call returns that identical cached string and leaves
the state unchanged, regardless of the renderer supplied to the second
call and even if the underlying source text has changed in between. -/
theorem c4_compile_memoized (render₁ render₂ : List Char → List Char)
    (e : BlogEntry) (raw' : List Char)
    (hne : (BlogEntry.compile render₁ e).1 ≠ []) :
    BlogEntry.compile render₂ { (BlogEntry.compile render₁ e).2 with raw := raw' }
      = ((BlogEntry.compile render₁ e).1,
         { (BlogEntry.compile render₁ e).2 with raw := raw' }) := by
  have key : ∀ (st : BlogEntry) (r' : List Char), st._compiled = some r' →
      r' ≠ [] → BlogEntry.compile render₂ st = (r', st) := by
    intro st r' h hne'
    simp [BlogEntry.compile, h, hne']
  have hst := compile_state_cached render₁ e
  exact key _ _ (by rw [← hst]) hne

/-- C4 witness: with a renderer that yields `"X"` the first result is
non-empty, and the second call (renderer `"Y"`, source changed to
`"Q"`) returns the cached first result. -/
theorem c4_compile_memoized_witness :
    (BlogEntry.compile xRenderer c4entry).1 ≠ []
    ∧ BlogEntry.compile yRenderer
        { (BlogEntry.compile xRenderer c4entry).2 with raw := "Q".data }
      = ((BlogEntry.compile xRenderer c4entry).1,
         { (BlogEntry.compile xRenderer c4entry).2 with raw := "Q".data }) :=
  ⟨by decide, c4_compile_memoized xRenderer yRenderer c4entry "Q".data (by decide)⟩

/-- C10: the cache check of `compile()` tests truthiness, not presence:
an empty rendered result is stored but every later call re-runs the
whole pipeline, while a non-empty cached value is returned as is. -/
theorem c10_cache_check_truthiness (render render₂ : List Char → List Char)
    (e : BlogEntry) (hnone : e._compiled = none)
    (hempty : compile_rst render e.get_source (some e.filename) = []) :
    ((BlogEntry.compile render e).2)._compiled = some []
    ∧ (∀ st : BlogEntry, st._compiled = some [] →
        BlogEntry.compile render₂ st
          = (compile_rst render₂ st.get_source (some st.filename),
             { st with _compiled := some (compile_rst render₂ st.get_source (some st.filename)) }))
    ∧ (∀ (st : BlogEntry) (s : List Char), st._compiled = some s → s ≠ [] →
        BlogEntry.compile render₂ st = (s, st)) := by
  refine ⟨?_, ?_, ?_⟩
  · simp [BlogEntry.compile, hnone, hempty]
  · intro st h
    simp [BlogEntry.compile, h]
  · intro st s h hs
    simp [BlogEntry.compile, h, hs]

/-- A fresh concrete entry used by the C10 witness. -/
def c10entry : BlogEntry := ⟨"U".data, "d".data, "W".data, none⟩

/-- C10 witness: with the empty renderer, the first `compile()` call on
a fresh entry stores `some ""` in the cache field. -/
theorem c10_cache_check_truthiness_witness :
    ((BlogEntry.compile emptyRenderer c10entry).2)._compiled = some [] :=
  (c10_cache_check_truthiness emptyRenderer pageRenderer c10entry rfl (by decide)).1

/-- C8: a git-backed entry clones at most once: a first `read()` on a
fresh instance performs exactly one clone and caches the text, and any
later `read()` (whatever the clone behaviour then) returns the cached
text with zero clones and an unchanged state. -/
theorem c8_git_read_clone_once (clone clone₂ : List Char → List Char)
    (e : GitBlogEntry) (h : e._src = none) :
    (GitBlogEntry.read clone e).clones = 1
    ∧ (GitBlogEntry.read clone e).state._src = some (GitBlogEntry.read clone e).text
    ∧ GitBlogEntry.read clone₂ (GitBlogEntry.read clone e).state
      = ⟨(GitBlogEntry.read clone e).text, (GitBlogEntry.read clone e).state, 0⟩
    ∧ (∀ (e' : GitBlogEntry) (s : List Char), e'._src = some s →
        GitBlogEntry.read clone₂ e' = ⟨s, e', 0⟩) := by
  refine ⟨?_, ?_, ?_, ?_⟩
  · simp [GitBlogEntry.read, h]
  · simp [GitBlogEntry.read, h]
  · simp [GitBlogEntry.read, h]
  · intro e' s h'
    simp [GitBlogEntry.read, h']

/-- Clone stub returning a fixed README text. -/
def readmeClone : List Char → List Char := fun _ => "R".data

/-- C8 witness: a fresh git entry clones exactly once on first read. -/
theorem c8_git_read_clone_once_witness :
    (GitBlogEntry.read readmeClone ⟨"t".data, "d".data, "g".data, none⟩).clones = 1 :=
  (c8_git_read_clone_once readmeClone readmeClone
    ⟨"t".data, "d".data, "g".data, none⟩ rfl).1

theorem foldlM_blocks (f : BlogEntry → List Char) :
    ∀ (l : List BlogEntry) (acc : List Char),
      (∀ e ∈ l, excerptBlock e = some (f e)) →
      (l.foldlM (fun rst s => (excerptBlock s).map (fun b => rst ++ b)) acc
        : Option (List Char)) = some (acc ++ (l.map f).flatten) := by
  intro l
  induction l with
  | nil => intro acc _; simp
  | cons e l' ih =>
    intro acc h
    have he : excerptBlock e = some (f e) := h e (List.mem_cons_self e l')
    have h' : ∀ x ∈ l', excerptBlock x = some (f x) :=
      fun x hx => h x (List.mem_cons_of_mem e hx)
    rw [List.foldlM_cons, he]
    simp only [Option.map_some', Option.bind_eq_bind, Option.some_bind]
    rw [ih (acc ++ f e) h']
    simp [List.append_assoc]

/-- C6: the index markup is built from exactly the first
`min 6 (length)` entries in sequence order: the build over the whole
sequence equals the build over its first six entries, and when every
one of those excerpts succeeds the result is the heading followed by
their blocks concatenated in order (no padding when fewer than six
exist, the seventh and later entries omitted). -/
theorem c6_index_first_six (sources : List BlogEntry) :
    make_index_rst sources = make_index_rst (sources.take 6)
    ∧ (sources.take 6).length = min 6 sources.length
    ∧ ∀ (f : BlogEntry → List Char),
        (∀ e ∈ sources.take 6, excerptBlock e = some (f e)) →
        make_index_rst sources
          = some (indexHeading ++ ((sources.take 6).map f).flatten) := by
  refine ⟨?_, List.length_take 6 sources, ?_⟩
  · simp [make_index_rst, List.take_take]
  · intro f h
    exact foldlM_blocks f (sources.take 6) indexHeading h

/-- Seven concrete entries used to witness C6. -/
def c6wEntries : List BlogEntry :=
  [⟨"E1".data, "d".data, "A\nB\nx".data, none⟩,
   ⟨"E2".data, "d".data, "A\nB\nx".data, none⟩,
   ⟨"E3".data, "d".data, "A\nB\nx".data, none⟩,
   ⟨"E4".data, "d".data, "A\nB\nx".data, none⟩,
   ⟨"E5".data, "d".data, "A\nB\nx".data, none⟩,
   ⟨"E6".data, "d".data, "A\nB\nx".data, none⟩,
   ⟨"E7".data, "d".data, "A\nB\nx".data, none⟩]

/-- The block each witness entry contributes. -/
def c6wBlock : BlogEntry → List Char := fun e => (excerptBlock e).getD []

/-- C6 witness: over seven concrete entries the index markup is the
heading followed by exactly the six first excerpt blocks in order. -/
theorem c6_index_first_six_witness :
    make_index_rst c6wEntries
      = some (indexHeading ++ ((c6wEntries.take 6).map c6wBlock).flatten) :=
  (c6_index_first_six c6wEntries).2.2 c6wBlock (by decide)

